import Mathlib

/-!
Verification development for the DECODE emitter / target-representation core.

The implementation files `deepsmlm/generic/emitter.py` and
`deepsmlm/neuralfitter/pre_processing.py` are not part of the source tree
available here (only their tests and callers are), so the `EmitterSet`
operations and the target-generation transforms are modelled from the
specification text.  `deepsmlm/neuralfitter/dataset.py` is present and its
`SMLMDataset.__getitem__` / `__len__` are embedded directly from that source.

Coordinates and photon counts are modelled as rationals (exact arithmetic
standing in for floats), frame indices as integers.
-/

/-- Modelled from the spec: the `xy_unit` metadata of an EmitterSet, which is
either pixels (`px`) or nanometres (`nm`); absence is modelled by `Option`. -/
inductive XYUnit where
  | px
  | nm
deriving DecidableEq, Repr

/-- Modelled from the spec: one emitter row, `xyz` (3 floats, canonical unit),
`phot` (photon count) and `frame_ix` (integer, may be negative). -/
structure Emitter where
  xyz : ℚ × ℚ × ℚ
  phot : ℚ
  frame_ix : ℤ
deriving DecidableEq, Repr

/-- x-coordinate of an emitter. -/
def Emitter.x (em : Emitter) : ℚ := em.xyz.1

/-- y-coordinate of an emitter. -/
def Emitter.y (em : Emitter) : ℚ := em.xyz.2.1

/-- z-coordinate (depth) of an emitter. -/
def Emitter.z (em : Emitter) : ℚ := em.xyz.2.2

/-- Modelled from the spec: an `EmitterSet` is an ordered collection of
emitters together with unit metadata (`xy_unit`, `px_size`) and the optional
cramer-rao uncertainty columns `xyz_cr`. -/
structure EmitterSet where
  ems : List Emitter
  xy_unit : Option XYUnit := none
  px_size : Option (ℚ × ℚ) := none
  xyz_cr : List (ℚ × ℚ × ℚ) := []
deriving DecidableEq, Repr

/-- The stored coordinate column of an EmitterSet. -/
def EmitterSet.xyzL (e : EmitterSet) : List (ℚ × ℚ × ℚ) := e.ems.map (·.xyz)

/-- The frame-index column of an EmitterSet. -/
def EmitterSet.frames (e : EmitterSet) : List ℤ := e.ems.map (·.frame_ix)

/-- Number of emitters in the set. -/
def EmitterSet.len (e : EmitterSet) : ℕ := e.ems.length

/-- Modelled from the spec: the two construction errors, in the order the
validation performs the checks: element-count mismatch first, non-integral
`frame_ix` second. -/
inductive ConstructionError where
  | countMismatch
  | nonIntegralFrame
deriving DecidableEq, Repr

/-- A rational is integral iff its denominator is 1. -/
def ratIntegral (q : ℚ) : Bool := q.den == 1

/-- Modelled from the spec (§4.2, `EmitterSet.__init__` sanity check, absent
from the source tree): validated construction from raw columns.  Checks
(1) element counts match across the provided columns, (2) `frame_ix` values
are integral; on failure no EmitterSet is produced. -/
def mkEmitterSet (xyz : List (ℚ × ℚ × ℚ)) (phot : List ℚ) (frame_ix : List ℚ)
    (xy_unit : Option XYUnit) (px_size : Option (ℚ × ℚ)) :
    Except ConstructionError EmitterSet :=
  if xyz.length = phot.length ∧ phot.length = frame_ix.length then
    if frame_ix.all ratIntegral then
      .ok { ems := (xyz.zip (phot.zip frame_ix)).map
              (fun c => { xyz := c.1, phot := c.2.1, frame_ix := c.2.2.num }),
            xy_unit := xy_unit, px_size := px_size }
    else .error .nonIntegralFrame
  else .error .countMismatch

/-- Modelled from the spec: the two unit-conversion failure modes of the
accessors: source unit unset, or pixel size required but unset. -/
inductive UnitError where
  | noUnit
  | noPxSize
deriving DecidableEq, Repr

/-- Modelled from the spec (§4.1): convert one coordinate triple out of the
source unit `u` using pixel size `s`: `px → nm` multiplies x and y per axis by
`s`, `nm → px` divides, z is never scaled. -/
def convCoord : XYUnit → (ℚ × ℚ) → (ℚ × ℚ × ℚ) → (ℚ × ℚ × ℚ)
  | .px, s, c => (c.1 * s.1, c.2.1 * s.2, c.2.2)
  | .nm, s, c => (c.1 / s.1, c.2.1 / s.2, c.2.2)

/-- Elementwise conversion of a coordinate column out of source unit `u`. -/
def convList (u : XYUnit) (s : ℚ × ℚ) : List (ℚ × ℚ × ℚ) → List (ℚ × ℚ × ℚ)
  | [] => []
  | c :: cs => convCoord u s c :: convList u s cs

/-- Modelled from the spec (§4.1, `EmitterSet` unit accessors, absent from the
source tree): request the coordinate column `l` (stored in unit `src` with
pixel size `ps`) in target unit `tgt`.  Returns the input unchanged when it is
already in the requested unit, errors when the source unit is unset or when a
conversion is requested without a pixel size, and otherwise converts per
axis.  The unit checks are performed regardless of whether `l` is empty. -/
def convUnit (src : Option XYUnit) (ps : Option (ℚ × ℚ)) (tgt : XYUnit)
    (l : List (ℚ × ℚ × ℚ)) : Except UnitError (List (ℚ × ℚ × ℚ)) :=
  match src with
  | none => .error .noUnit
  | some u =>
    if u = tgt then .ok l
    else
      match ps with
      | none => .error .noPxSize
      | some s => .ok (convList u s l)

/-- Coordinates in pixel units (accessor, may fail). -/
def EmitterSet.xyz_px (e : EmitterSet) : Except UnitError (List (ℚ × ℚ × ℚ)) :=
  convUnit e.xy_unit e.px_size .px e.xyzL

/-- Coordinates in nanometre units (accessor, may fail). -/
def EmitterSet.xyz_nm (e : EmitterSet) : Except UnitError (List (ℚ × ℚ × ℚ)) :=
  convUnit e.xy_unit e.px_size .nm e.xyzL

/-- Cramer-rao uncertainties in pixel units (accessor, may fail). -/
def EmitterSet.xyz_cr_px (e : EmitterSet) : Except UnitError (List (ℚ × ℚ × ℚ)) :=
  convUnit e.xy_unit e.px_size .px e.xyz_cr

/-- Cramer-rao uncertainties in nanometre units (accessor, may fail). -/
def EmitterSet.xyz_cr_nm (e : EmitterSet) : Except UnitError (List (ℚ × ℚ × ℚ)) :=
  convUnit e.xy_unit e.px_size .nm e.xyz_cr

/-- Modelled from the spec: `CoordinateOnlyEmitter`, an EmitterSet built from a
coordinate column alone (photon counts and frame indices zeroed). -/
def CoordinateOnlyEmitter (l : List (ℚ × ℚ × ℚ)) (u : Option XYUnit)
    (s : Option (ℚ × ℚ)) : EmitterSet :=
  { ems := l.map (fun c => { xyz := c, phot := 0, frame_ix := 0 }),
    xy_unit := u, px_size := s, xyz_cr := [] }

/-- The sub-EmitterSet of emitters on frame `k` (order preserved, metadata
kept). -/
def EmitterSet.filterFrame (e : EmitterSet) (k : ℤ) : EmitterSet :=
  { e with ems := e.ems.filter (fun em => em.frame_ix = k) }

/-- Lower bound of the frame range: explicit `ix_f`, defaulting to the
observed minimum frame index. -/
def resolvedLo (e : EmitterSet) (ix_f : Option ℤ) : ℤ :=
  ix_f.getD ((e.frames.min?).getD 0)

/-- Upper bound of the frame range: explicit `ix_l`, defaulting to the
observed maximum frame index. -/
def resolvedHi (e : EmitterSet) (ix_l : Option ℤ) : ℤ :=
  ix_l.getD ((e.frames.max?).getD 0)

/-- Modelled from the spec (§4.3, `EmitterSet.split_in_frames`, absent from
the source tree): partition into one EmitterSet per integer frame in the
inclusive range `[ix_f, ix_l]` (bounds default to the observed min/max frame
index), ascending by frame. -/
def EmitterSet.split_in_frames (e : EmitterSet) (ix_f ix_l : Option ℤ) :
    List EmitterSet :=
  let lo := resolvedLo e ix_f
  let hi := resolvedHi e ix_l
  (List.range (hi - lo + 1).toNat).map (fun (i : ℕ) => e.filterFrame (lo + (i : ℤ)))

/-- Frame-index rewrite applied to every emitter inherited from input set `i`
during concatenation: a literal per-set index from `fix` when given, else a
shift of `i * s` when `shift = some s`, else unchanged. -/
def reframe (fix : Option (List ℤ)) (shift : Option ℤ) (i : ℕ) (em : Emitter) :
    Emitter :=
  match fix with
  | some l => { em with frame_ix := l.getD i 0 }
  | none =>
    match shift with
    | some s => { em with frame_ix := em.frame_ix + i * s }
    | none => em

/-- Emitter rows of the concatenation, sets numbered from `i` upward. -/
def catAux (fix : Option (List ℤ)) (shift : Option ℤ) :
    ℕ → List EmitterSet → List Emitter
  | _, [] => []
  | i, s :: rest => s.ems.map (reframe fix shift i) ++ catAux fix shift (i + 1) rest

/-- Modelled from the spec (§4.4, `EmitterSet.cat`, absent from the source
tree): concatenate an ordered sequence of EmitterSets, preserving per-set
emitter order, with the mutually exclusive `frame_ix` / `frame_ix_shift`
frame-index policies.  Metadata is inherited from the first input set. -/
def EmitterSet.cat (sets : List EmitterSet) (fix : Option (List ℤ))
    (shift : Option ℤ) : EmitterSet :=
  { ems := catAux fix shift 0 sets,
    xy_unit := (sets.head?.map (·.xy_unit)).getD none,
    px_size := (sets.head?.map (·.px_size)).getD none,
    xyz_cr := [] }

/-- Number of emitters in the sets preceding set `i`, i.e. the position in the
concatenation at which set `i`'s emitters start. -/
def offsetBefore (sets : List EmitterSet) (i : ℕ) : ℕ :=
  ((sets.take i).map (fun s => s.ems.length)).sum

/-- A rectangular pixel grid: x/y extents and the image shape, as handed to
every target-generation transform at construction. -/
structure GridCfg where
  xextent : ℚ × ℚ
  yextent : ℚ × ℚ
  img_shape : ℕ × ℕ
deriving DecidableEq, Repr

/-- Width of one bin of the interval `[lo, hi)` split into `n` bins. -/
def binW (lo hi : ℚ) (n : ℕ) : ℚ := (hi - lo) / n

/-- Bin index of coordinate `x` in the interval `[lo, hi)` split into `n`
bins. -/
def binIx (lo hi : ℚ) (n : ℕ) (x : ℚ) : ℤ := ⌊(x - lo) / binW lo hi n⌋

/-- Centre of bin `i` of the interval `[lo, hi)` split into `n` bins. -/
def binCenter (lo hi : ℚ) (n : ℕ) (i : ℤ) : ℚ :=
  lo + (i + 1 / 2) * binW lo hi n

/-- Signed fractional offset (in bin units) of coordinate `x` from the centre
of the bin it falls into. -/
def fracOff (lo hi : ℚ) (n : ℕ) (x : ℚ) : ℚ :=
  (x - lo) / binW lo hi n - binIx lo hi n x - 1 / 2

/-- Whether an emitter lies inside the configured x/y extent. -/
def inExtent (g : GridCfg) (em : Emitter) : Prop :=
  g.xextent.1 ≤ em.x ∧ em.x < g.xextent.2 ∧ g.yextent.1 ≤ em.y ∧ em.y < g.yextent.2

instance (g : GridCfg) (em : Emitter) : Decidable (inExtent g em) := by
  unfold inExtent; infer_instance

/-- The pixel an emitter is assigned to: the bin of its x and y coordinates;
out-of-extent emitters are dropped (`none`). -/
def pixelOf (g : GridCfg) (em : Emitter) : Option (ℤ × ℤ) :=
  if inExtent g em then
    some (binIx g.xextent.1 g.xextent.2 g.img_shape.1 em.x,
          binIx g.yextent.1 g.yextent.2 g.img_shape.2 em.y)
  else none

/-- The emitter written at pixel `(i, j)`: the last emitter of the frame
assigned to that pixel (last write wins), if any. -/
def lastAt (g : GridCfg) (ems : List Emitter) (i j : ℤ) : Option Emitter :=
  (ems.filter (fun em => pixelOf g em = some (i, j))).getLast?

/-- Modelled from the spec (§4.5, `OffsetRep.forward` probability channel,
absent from the source tree): 1 at every pixel with an assigned emitter, 0
elsewhere. -/
def pMap (g : GridCfg) (ems : List Emitter) (i j : ℤ) : ℚ :=
  match lastAt g ems i j with
  | some _ => 1
  | none => 0

/-- Modelled from the spec (§4.5, `OffsetRep.forward` intensity channel):
the photon count of the assigned emitter, 0 elsewhere. -/
def iMap (g : GridCfg) (ems : List Emitter) (i j : ℤ) : ℚ :=
  match lastAt g ems i j with
  | some em => em.phot
  | none => 0

/-- Modelled from the spec (§4.5, `OffsetRep.forward` Δx channel): the signed
fractional x-offset of the assigned emitter from the pixel centre. -/
def dxMap (g : GridCfg) (ems : List Emitter) (i j : ℤ) : ℚ :=
  match lastAt g ems i j with
  | some em => fracOff g.xextent.1 g.xextent.2 g.img_shape.1 em.x
  | none => 0

/-- Modelled from the spec (§4.5, `OffsetRep.forward` Δy channel): the signed
fractional y-offset of the assigned emitter from the pixel centre. -/
def dyMap (g : GridCfg) (ems : List Emitter) (i j : ℤ) : ℚ :=
  match lastAt g ems i j with
  | some em => fracOff g.yextent.1 g.yextent.2 g.img_shape.2 em.y
  | none => 0

/-- Modelled from the spec (§4.5, `OffsetRep.forward` z channel): the depth of
the assigned emitter. -/
def zMap (g : GridCfg) (ems : List Emitter) (i j : ℤ) : ℚ :=
  match lastAt g ems i j with
  | some em => em.z
  | none => 0

/-- Index and value of the minimum of a list, earliest index winning ties. -/
def argmin? : List ℚ → Option (ℕ × ℚ)
  | [] => none
  | x :: xs =>
    match argmin? xs with
    | none => some (0, x)
    | some (i, v) => if v < x then some (i + 1, v) else some (0, x)

/-- Squared xy-distance from the centre of pixel `(i, j)` to an emitter. -/
def sqDist (g : GridCfg) (i j : ℤ) (em : Emitter) : ℚ :=
  (em.x - binCenter g.xextent.1 g.xextent.2 g.img_shape.1 i) ^ 2 +
  (em.y - binCenter g.yextent.1 g.yextent.2 g.img_shape.2 j) ^ 2

/-- Modelled from the spec (§4.5, `GlobalOffsetRep.assign_emitter`, absent
from the source tree): for each pixel, the index of the emitter nearest to the
pixel centre (nearest-neighbour Voronoi-like partition over the regular grid),
earliest emitter winning ties. -/
def assign_emitter (g : GridCfg) (ems : List Emitter) (i j : ℤ) : ℕ :=
  ((argmin? (ems.map (sqDist g i j))).map Prod.fst).getD 0

/-- Embedded from `src/deepsmlm/neuralfitter/dataset.py`: the state of an
`SMLMDataset` after construction — the raw frame stack (one channel list per
frame), the per-frame EmitterSets, the target generator and the
`multi_frame_output` flag. -/
structure SMLMDataset (α β : Type) where
  frames : List (List α)
  em : List EmitterSet
  tar_gen : EmitterSet → β
  multi_frame_output : Bool

/-- Embedded from `SMLMDataset.__len__` (dataset.py:51-58): the number of
frames. -/
def SMLMDataset.length {α β : Type} (d : SMLMDataset α β) : ℕ :=
  d.frames.length

/-- Embedded from `SMLMDataset.__getitem__` (dataset.py:60-79): with
`multi_frame_output`, the image is the channel-wise concatenation of frames
`max(0, index-1)`, `index` and `min(len-1, index+1)` (natural-number
subtraction realises the `max(0, ·)`); the target is the target generator
applied to the per-frame EmitterSet, and the index is returned as the third
component. -/
def SMLMDataset.getitem {α β : Type} (d : SMLMDataset α β) (index : ℕ) :
    List α × β × ℕ :=
  let img :=
    if d.multi_frame_output then
      d.frames.getD (index - 1) [] ++ d.frames.getD index [] ++
        d.frames.getD (min (d.length - 1) (index + 1)) []
    else d.frames.getD index []
  (img, d.tar_gen (d.em.getD index { ems := [] }), index)

/-- An EmitterSet whose three emitters sit on frames −1, 0, 1 (witness data
for frame splitting with default bounds). -/
def splitWitnessSet : EmitterSet :=
  { ems := [{ xyz := (0, 0, 0), phot := 1, frame_ix := -1 },
            { xyz := (0, 0, 0), phot := 1, frame_ix := 0 },
            { xyz := (0, 0, 0), phot := 1, frame_ix := 1 }] }

/-- A two-emitter set on frames 3 and 4 (witness data for concatenation). -/
def catWitnessA : EmitterSet :=
  { ems := [{ xyz := (0, 0, 0), phot := 1, frame_ix := 3 },
            { xyz := (0, 0, 0), phot := 1, frame_ix := 4 }] }

/-- A one-emitter set on frame 7 (witness data for concatenation). -/
def catWitnessB : EmitterSet :=
  { ems := [{ xyz := (0, 0, 0), phot := 1, frame_ix := 7 }] }

/-- A three-frame, one-channel dataset (witness data for `__getitem__`). -/
def smlmWitness : SMLMDataset ℕ ℕ :=
  { frames := [[10], [20], [30]], em := [], tar_gen := fun _ => 0,
    multi_frame_output := true }

/-- The grid configuration used throughout the reference tests: extent
`(-0.5, 31.5)` in x and y, image shape 32 × 32 (pixel width 1, pixel `k`
centred at `k`). -/
def cfg32 : GridCfg :=
  { xextent := (-(1 / 2), 63 / 2), yextent := (-(1 / 2), 63 / 2),
    img_shape := (32, 32) }

/-- An emitter sitting exactly on the centre of pixel (15, 15), with depth 0:
its probability entry is 1 but its Δx entry is 0. -/
def centerEm : Emitter := { xyz := (15, 15, 0), phot := 1, frame_ix := 0 }

/-- An off-centre emitter at (14.75, 17.25, 3) with photon count 2: all five
of its map entries are non-zero (witness data for the support invariant). -/
def offEm : Emitter := { xyz := (59 / 4, 69 / 4, 3), phot := 2, frame_ix := 0 }

/-- The left-extreme emitter of the half-split test: x at the left edge of the
grid, y on the horizontal midline. -/
def emLeft : Emitter := { xyz := (-(1 / 2), 31 / 2, 0), phot := 0, frame_ix := 0 }

/-- The right-extreme emitter of the half-split test: x at the right edge of
the grid, y on the horizontal midline. -/
def emRight : Emitter := { xyz := (63 / 2, 31 / 2, 0), phot := 0, frame_ix := 0 }

theorem coordinateOnly_xyzL (l : List (ℚ × ℚ × ℚ)) (u : Option XYUnit)
    (s : Option (ℚ × ℚ)) : (CoordinateOnlyEmitter l u s).xyzL = l := by
  induction l with
  | nil => rfl
  | cons c cs ih =>
    simp only [CoordinateOnlyEmitter, EmitterSet.xyzL, List.map_cons] at ih ⊢
    rw [ih]

theorem convList_eq_map (u : XYUnit) (s : ℚ × ℚ) (l : List (ℚ × ℚ × ℚ)) :
    convList u s l = l.map (convCoord u s) := by
  induction l with
  | nil => rfl
  | cons c cs ih => simp [convList, ih]

theorem getD_eq_get {γ : Type} (l : List γ) (n : ℕ) (h : n < l.length) (d : γ) :
    l.getD n d = l.get ⟨n, h⟩ := by
  simp [List.getD_eq_getElem?_getD, List.getElem?_eq_getElem h]

/-- Claim C5: EmitterSet construction raises exactly on column-count mismatch
or non-integral frame indices, checking the element counts first and the
frame-index integrality second; on failure no EmitterSet is produced. -/
theorem mkEmitterSet_spec (xyz : List (ℚ × ℚ × ℚ)) (phot : List ℚ)
    (fi : List ℚ) (u : Option XYUnit) (s : Option (ℚ × ℚ)) :
    ((∃ err, mkEmitterSet xyz phot fi u s = .error err) ↔
      ¬(xyz.length = phot.length ∧ phot.length = fi.length) ∨
        ¬(fi.all ratIntegral = true)) ∧
    (¬(xyz.length = phot.length ∧ phot.length = fi.length) →
      mkEmitterSet xyz phot fi u s = .error .countMismatch) ∧
    ((xyz.length = phot.length ∧ phot.length = fi.length) →
      ¬(fi.all ratIntegral = true) →
      mkEmitterSet xyz phot fi u s = .error .nonIntegralFrame) := by
  by_cases hlen : xyz.length = phot.length ∧ phot.length = fi.length <;>
    by_cases hint : fi.all ratIntegral = true <;>
      simp [mkEmitterSet, hlen, hint]

/-- Witness for C5: a one-coordinate, zero-photon-column input trips the
count check (and the error is `countMismatch`, i.e. the first check). -/
theorem mkEmitterSet_spec_witness :
    mkEmitterSet [((0 : ℚ), (0 : ℚ), (0 : ℚ))] [] [] none none =
      .error .countMismatch :=
  (mkEmitterSet_spec [((0 : ℚ), (0 : ℚ), (0 : ℚ))] [] [] none none).2.1
    (by decide)

/-- Claim C6: with the source unit set, the accessors `xyz_px` / `xyz_nm` and
their cramer-rao analogues return the stored columns unchanged when already in
the requested unit, and otherwise (pixel size present) convert by per-axis
multiplication (px → nm) or division (nm → px) of x and y, leaving z
unscaled. -/
theorem xyz_unit_conversion (e : EmitterSet) (u : XYUnit) (s : ℚ × ℚ)
    (hu : e.xy_unit = some u) :
    (u = .px → e.xyz_px = .ok e.xyzL ∧ e.xyz_cr_px = .ok e.xyz_cr) ∧
    (u = .nm → e.xyz_nm = .ok e.xyzL ∧ e.xyz_cr_nm = .ok e.xyz_cr) ∧
    (u = .px → e.px_size = some s →
      e.xyz_nm = .ok (e.xyzL.map (fun c => (c.1 * s.1, c.2.1 * s.2, c.2.2))) ∧
      e.xyz_cr_nm = .ok (e.xyz_cr.map (fun c => (c.1 * s.1, c.2.1 * s.2, c.2.2)))) ∧
    (u = .nm → e.px_size = some s →
      e.xyz_px = .ok (e.xyzL.map (fun c => (c.1 / s.1, c.2.1 / s.2, c.2.2))) ∧
      e.xyz_cr_px = .ok (e.xyz_cr.map (fun c => (c.1 / s.1, c.2.1 / s.2, c.2.2)))) := by
  refine ⟨?_, ?_, ?_, ?_⟩ <;> rintro rfl
  · simp [EmitterSet.xyz_px, EmitterSet.xyz_cr_px, convUnit, hu]
  · simp [EmitterSet.xyz_nm, EmitterSet.xyz_cr_nm, convUnit, hu]
  · intro hs
    simp [EmitterSet.xyz_nm, EmitterSet.xyz_cr_nm, convUnit, hu, hs,
      convList_eq_map, convCoord]
  · intro hs
    simp [EmitterSet.xyz_px, EmitterSet.xyz_cr_px, convUnit, hu, hs,
      convList_eq_map, convCoord]

/-- Witness for C6: a pixel-unit coordinate set with pixel size `(2, 4)`
converts `(1, 2, 3)` to `(2, 8, 3)` in nanometres — x and y scaled per axis,
z untouched. -/
theorem xyz_unit_conversion_witness :
    (CoordinateOnlyEmitter [((1 : ℚ), (2 : ℚ), (3 : ℚ))] (some .px)
        (some (2, 4))).xyz_nm = .ok [((2 : ℚ), (8 : ℚ), (3 : ℚ))] := by
  have h := (xyz_unit_conversion
    (CoordinateOnlyEmitter [((1 : ℚ), (2 : ℚ), (3 : ℚ))] (some .px)
      (some (2, 4))) .px (2, 4) rfl).2.2.1 rfl rfl
  rw [h.1, coordinateOnly_xyzL]
  norm_num

/-- Claim C7: each unit accessor fails exactly when the source unit is unset,
or when a conversion to the other unit is requested without a pixel size; the
stored columns (and in particular whether they are empty) play no role. -/
theorem unit_access_error_iff (e : EmitterSet) :
    ((∃ err, e.xyz_px = .error err) ↔
      e.xy_unit = none ∨ (e.xy_unit ≠ some .px ∧ e.px_size = none)) ∧
    ((∃ err, e.xyz_nm = .error err) ↔
      e.xy_unit = none ∨ (e.xy_unit ≠ some .nm ∧ e.px_size = none)) ∧
    ((∃ err, e.xyz_cr_px = .error err) ↔
      e.xy_unit = none ∨ (e.xy_unit ≠ some .px ∧ e.px_size = none)) ∧
    ((∃ err, e.xyz_cr_nm = .error err) ↔
      e.xy_unit = none ∨ (e.xy_unit ≠ some .nm ∧ e.px_size = none)) := by
  have key : ∀ (tgt : XYUnit) (l : List (ℚ × ℚ × ℚ)),
      (∃ err, convUnit e.xy_unit e.px_size tgt l = .error err) ↔
        e.xy_unit = none ∨ (e.xy_unit ≠ some tgt ∧ e.px_size = none) := by
    intro tgt l
    rcases hsrc : e.xy_unit with _ | u
    · simp [convUnit]
    · by_cases hut : u = tgt
      · subst hut; simp [convUnit]
      · rcases hps : e.px_size with _ | s <;>
          simp [convUnit, hut, Option.some_inj, hps]
  exact ⟨key .px e.xyzL, key .nm e.xyzL, key .px e.xyz_cr, key .nm e.xyz_cr⟩

/-- Witness for C7: the empty coordinate set with no unit metadata still
errors on `xyz_px` — an empty tensor is not an implicit pass. -/
theorem unit_access_error_iff_witness :
    ∃ err, (CoordinateOnlyEmitter [] none none).xyz_px = .error err :=
  ((unit_access_error_iff (CoordinateOnlyEmitter [] none none)).1).mpr
    (Or.inl rfl)

theorem convList_nm_px (s : ℚ × ℚ) (h1 : s.1 ≠ 0) (h2 : s.2 ≠ 0)
    (l : List (ℚ × ℚ × ℚ)) : convList .nm s (convList .px s l) = l := by
  induction l with
  | nil => rfl
  | cons c cs ih =>
    simp only [convList, convCoord, ih]
    rw [mul_div_cancel_right₀ _ h1, mul_div_cancel_right₀ _ h2]

theorem convList_px_nm (s : ℚ × ℚ) (h1 : s.1 ≠ 0) (h2 : s.2 ≠ 0)
    (l : List (ℚ × ℚ × ℚ)) : convList .px s (convList .nm s l) = l := by
  induction l with
  | nil => rfl
  | cons c cs ih =>
    simp only [convList, convCoord, ih]
    rw [div_mul_cancel₀ _ h1, div_mul_cancel₀ _ h2]

/-- Claim C8: with a fixed nonzero pixel size and a set unit, converting the
coordinates px → nm and re-reading the result as a nanometre-unit set back in
px reproduces the original column exactly, and likewise nm → px → nm. -/
theorem xyz_conversion_roundtrip (l : List (ℚ × ℚ × ℚ)) (s : ℚ × ℚ)
    (h1 : s.1 ≠ 0) (h2 : s.2 ≠ 0) :
    (∃ v, (CoordinateOnlyEmitter l (some .px) (some s)).xyz_nm = .ok v ∧
      (CoordinateOnlyEmitter v (some .nm) (some s)).xyz_px = .ok l) ∧
    (∃ v, (CoordinateOnlyEmitter l (some .nm) (some s)).xyz_px = .ok v ∧
      (CoordinateOnlyEmitter v (some .px) (some s)).xyz_nm = .ok l) := by
  constructor
  · refine ⟨convList .px s l, ?_, ?_⟩
    · rw [EmitterSet.xyz_nm, coordinateOnly_xyzL]
      simp [CoordinateOnlyEmitter, convUnit]
    · rw [EmitterSet.xyz_px, coordinateOnly_xyzL]
      simp [CoordinateOnlyEmitter, convUnit, convList_nm_px s h1 h2]
  · refine ⟨convList .nm s l, ?_, ?_⟩
    · rw [EmitterSet.xyz_px, coordinateOnly_xyzL]
      simp [CoordinateOnlyEmitter, convUnit]
    · rw [EmitterSet.xyz_nm, coordinateOnly_xyzL]
      simp [CoordinateOnlyEmitter, convUnit, convList_px_nm s h1 h2]

/-- Witness for C8: the round trip at the concrete column `[(1, 2, 3)]` with
pixel size `(2, 4)`. -/
theorem xyz_conversion_roundtrip_witness :
    (∃ v, (CoordinateOnlyEmitter [((1 : ℚ), (2 : ℚ), (3 : ℚ))] (some .px)
        (some (2, 4))).xyz_nm = .ok v ∧
      (CoordinateOnlyEmitter v (some .nm) (some (2, 4))).xyz_px =
        .ok [((1 : ℚ), (2 : ℚ), (3 : ℚ))]) ∧
    (∃ v, (CoordinateOnlyEmitter [((1 : ℚ), (2 : ℚ), (3 : ℚ))] (some .nm)
        (some (2, 4))).xyz_px = .ok v ∧
      (CoordinateOnlyEmitter v (some .px) (some (2, 4))).xyz_nm =
        .ok [((1 : ℚ), (2 : ℚ), (3 : ℚ))]) :=
  xyz_conversion_roundtrip [((1 : ℚ), (2 : ℚ), (3 : ℚ))] (2, 4)
    (by norm_num) (by norm_num)

/-- Claim C1: `split_in_frames` over the inclusive range `[ix_f, ix_l]`
(bounds defaulting to the observed min/max frame index) returns
`ix_l - ix_f + 1` EmitterSets in ascending frame order, the entry for frame
`lo + i` containing exactly the emitters whose `frame_ix` equals it (possibly
empty); emitters outside a narrower-than-data range are dropped. -/
theorem split_in_frames_spec (e : EmitterSet) (ix_f ix_l : Option ℤ)
    (hne : ix_f = none ∨ ix_l = none → e.ems ≠ [])
    (hle : resolvedLo e ix_f ≤ resolvedHi e ix_l) :
    ((e.split_in_frames ix_f ix_l).length : ℤ) =
      resolvedHi e ix_l - resolvedLo e ix_f + 1 ∧
    ∀ i (h : i < (e.split_in_frames ix_f ix_l).length),
      ((e.split_in_frames ix_f ix_l).get ⟨i, h⟩).ems =
        e.ems.filter (fun em => em.frame_ix = resolvedLo e ix_f + i) := by
  have hlen : (e.split_in_frames ix_f ix_l).length
      = (resolvedHi e ix_l - resolvedLo e ix_f + 1).toNat := by
    simp only [EmitterSet.split_in_frames]
    rw [List.length_map, List.length_range]
  constructor
  · rw [hlen]; omega
  · intro i h
    have hget : (e.split_in_frames ix_f ix_l).get ⟨i, h⟩
        = e.filterFrame (resolvedLo e ix_f + i) := by
      simp only [EmitterSet.split_in_frames, List.get_eq_getElem]
      rw [List.getElem_map, List.getElem_range]
    rw [hget]
    rfl

/-- Witness for C1: splitting the frame-{−1,0,1} set with both bounds
defaulting yields `max − min + 1` sets, each holding exactly its frame's
emitters. -/
theorem split_in_frames_spec_witness :
    ((splitWitnessSet.split_in_frames none none).length : ℤ) =
      resolvedHi splitWitnessSet none - resolvedLo splitWitnessSet none + 1 ∧
    ∀ i (h : i < (splitWitnessSet.split_in_frames none none).length),
      ((splitWitnessSet.split_in_frames none none).get ⟨i, h⟩).ems =
        splitWitnessSet.ems.filter
          (fun em => em.frame_ix = resolvedLo splitWitnessSet none + i) :=
  split_in_frames_spec splitWitnessSet none none (fun _ => by decide) (by decide)

theorem catAux_length (fix : Option (List ℤ)) (shift : Option ℤ) :
    ∀ (sets : List EmitterSet) (j : ℕ),
      (catAux fix shift j sets).length = (sets.map (fun s => s.ems.length)).sum := by
  intro sets
  induction sets with
  | nil => intro j; rfl
  | cons s rest ih => intro j; simp [catAux, ih]

theorem catAux_drop_take (fix : Option (List ℤ)) (shift : Option ℤ) :
    ∀ (sets : List EmitterSet) (j i : ℕ) (hi : i < sets.length),
      ((catAux fix shift j sets).drop (offsetBefore sets i)).take
          (sets.get ⟨i, hi⟩).ems.length =
        (sets.get ⟨i, hi⟩).ems.map (reframe fix shift (j + i)) := by
  intro sets
  induction sets with
  | nil => intro j i hi; exact absurd hi (by simp)
  | cons s rest ih =>
    intro j i hi
    cases i with
    | zero =>
      simp only [offsetBefore, List.take_zero, List.map_nil, List.sum_nil,
        List.drop_zero, catAux, List.get, Nat.add_zero]
      exact List.take_left' (List.length_map _ _)
    | succ i =>
      have hi2 : i < rest.length := Nat.lt_of_succ_lt_succ hi
      have hoff : offsetBefore (s :: rest) (i + 1) =
          (s.ems.map (reframe fix shift j)).length + offsetBefore rest i := by
        simp [offsetBefore, List.length_map]
      have hget : (s :: rest).get ⟨i + 1, hi⟩ = rest.get ⟨i, hi2⟩ := rfl
      rw [hget, catAux, hoff, List.drop_append,
        show j + (i + 1) = j + 1 + i from by omega]
      exact ih (j + 1) i hi2

theorem catAux_id (j : ℕ) (sets : List EmitterSet) :
    catAux none none j sets = sets.flatMap (fun s => s.ems) := by
  induction sets generalizing j with
  | nil => rfl
  | cons s rest ih =>
    simp only [catAux, List.flatMap_cons, ih]
    congr 1
    exact List.map_id' s.ems

/-- Claim C2: `EmitterSet.cat` returns a set whose length is the sum of the
input lengths, preserving per-set emitter order; with `frame_ix` (one value
per set) every emitter of set `i` gets that literal frame index; with
`frame_ix_shift = s` instead, set `i`'s emitters get `i * s` added (set 0
unchanged); with neither, all rows are passed through unmodified. -/
theorem cat_spec (sets : List EmitterSet) (fix : Option (List ℤ))
    (shift : Option ℤ) :
    (EmitterSet.cat sets fix shift).ems.length
        = (sets.map (fun s => s.ems.length)).sum ∧
    (∀ l, fix = some l → l.length = sets.length →
      ∀ i (hi : i < sets.length),
        (((EmitterSet.cat sets fix shift).ems.drop (offsetBefore sets i)).take
            (sets.get ⟨i, hi⟩).ems.length) =
          (sets.get ⟨i, hi⟩).ems.map
            (fun em => { em with frame_ix := l.getD i 0 })) ∧
    (fix = none → ∀ s, shift = some s →
      ∀ i (hi : i < sets.length),
        (((EmitterSet.cat sets fix shift).ems.drop (offsetBefore sets i)).take
            (sets.get ⟨i, hi⟩).ems.length) =
          (sets.get ⟨i, hi⟩).ems.map
            (fun em => { em with frame_ix := em.frame_ix + i * s })) ∧
    (fix = none → shift = none →
      (EmitterSet.cat sets fix shift).ems = sets.flatMap (fun s => s.ems)) := by
  refine ⟨catAux_length fix shift sets 0, ?_, ?_, ?_⟩
  · rintro l rfl _hl i hi
    have h := catAux_drop_take (some l) shift sets 0 i hi
    rw [Nat.zero_add] at h
    exact h
  · rintro rfl s rfl i hi
    have h := catAux_drop_take none (some s) sets 0 i hi
    rw [Nat.zero_add] at h
    exact h
  · rintro rfl rfl
    exact catAux_id 0 sets

/-- Witness for C2: concatenating the 2-emitter and 1-emitter sets with
`frame_ix_shift = 1` gives 3 emitters, and the block inherited from set 1
has `1 * 1` added to its frame index (7 → 8). -/
theorem cat_spec_witness :
    (EmitterSet.cat [catWitnessA, catWitnessB] none (some 1)).ems.length = 3 ∧
    ((EmitterSet.cat [catWitnessA, catWitnessB] none (some 1)).ems.drop
        (offsetBefore [catWitnessA, catWitnessB] 1)).take 1 =
      [{ xyz := (0, 0, 0), phot := 1, frame_ix := 8 }] := by
  constructor
  · exact ((cat_spec [catWitnessA, catWitnessB] none (some 1)).1).trans (by decide)
  · exact (((cat_spec [catWitnessA, catWitnessB] none (some 1)).2.2.1 rfl 1 rfl 1
      (by decide)).trans (by decide))

/-- Claim C10: with `multi_frame_output`, `__getitem__(i)` (for a valid index)
returns a triple whose image is the channel-wise concatenation of frames
`max(0, i−1)`, `i` and `min(N−1, i+1)` — at the borders the missing neighbour
duplicates the border frame — and whose third component is the index itself. -/
theorem smlm_getitem_spec {α β : Type} (d : SMLMDataset α β) (i : ℕ)
    (hm : d.multi_frame_output = true) (hi : i < d.length) :
    (d.getitem i).1 =
      d.frames.get ⟨i - 1, lt_of_le_of_lt (Nat.sub_le i 1) hi⟩ ++
      d.frames.get ⟨i, hi⟩ ++
      d.frames.get ⟨min (d.length - 1) (i + 1), lt_of_le_of_lt
        (min_le_left _ _) (Nat.sub_lt (Nat.pos_of_ne_zero (by omega)) one_pos)⟩ ∧
    (i = 0 → i - 1 = i) ∧
    (i = d.length - 1 → min (d.length - 1) (i + 1) = i) ∧
    (d.getitem i).2.2 = i := by
  have hlen : 0 < d.length := Nat.pos_of_ne_zero (by omega)
  refine ⟨?_, ?_, ?_, rfl⟩
  · simp only [SMLMDataset.getitem, hm, if_true]
    rw [getD_eq_get d.frames (i - 1) (lt_of_le_of_lt (Nat.sub_le i 1) hi),
      getD_eq_get d.frames i hi,
      getD_eq_get d.frames (min (d.length - 1) (i + 1))
        (lt_of_le_of_lt (min_le_left _ _) (Nat.sub_lt hlen one_pos))]
  · intro h; omega
  · intro h; omega

/-- Witness for C10: at the left border (index 0) of the three-frame dataset,
the image duplicates frame 0 as its own left neighbour and the returned index
is 0. -/
theorem smlm_getitem_spec_witness :
    (smlmWitness.getitem 0).1 = [10, 10, 20] ∧ (smlmWitness.getitem 0).2.2 = 0 := by
  have h := smlm_getitem_spec smlmWitness 0 rfl (by decide)
  refine ⟨?_, h.2.2.2⟩
  rw [h.1]
  rfl

theorem fracOff_eq_fract (lo hi : ℚ) (n : ℕ) (x : ℚ) :
    fracOff lo hi n x = Int.fract ((x - lo) / binW lo hi n) - 1 / 2 := by
  unfold fracOff Int.fract binIx
  ring

theorem fracOff_bounds (lo hi : ℚ) (n : ℕ) (x : ℚ) :
    -(1 / 2) ≤ fracOff lo hi n x ∧ fracOff lo hi n x ≤ 1 / 2 := by
  rw [fracOff_eq_fract]
  have h1 := Int.fract_nonneg ((x - lo) / binW lo hi n)
  have h2 := Int.fract_lt_one ((x - lo) / binW lo hi n)
  constructor <;> linarith

theorem fracOff_eq_center (lo hi : ℚ) (n : ℕ) (x : ℚ)
    (hw : binW lo hi n ≠ 0) :
    fracOff lo hi n x =
      (x - binCenter lo hi n (binIx lo hi n x)) / binW lo hi n := by
  unfold fracOff binCenter
  field_simp
  ring

theorem lastAt_mem (g : GridCfg) (ems : List Emitter) (i j : ℤ) (em : Emitter)
    (h : lastAt g ems i j = some em) :
    em ∈ ems ∧ pixelOf g em = some (i, j) := by
  have hmem := List.mem_of_getLast?_eq_some h
  rw [List.mem_filter] at hmem
  exact ⟨hmem.1, by simpa using hmem.2⟩

theorem lastAt_single (g : GridCfg) (em : Emitter) (i j : ℤ)
    (h : pixelOf g em = some (i, j)) : lastAt g [em] i j = some em := by
  simp [lastAt, List.filter_cons, h]

theorem cfg32_binW_x : binW cfg32.xextent.1 cfg32.xextent.2 cfg32.img_shape.1 = 1 := by
  show binW (-(1 / 2) : ℚ) (63 / 2) 32 = 1
  unfold binW
  norm_num

theorem cfg32_binW_y : binW cfg32.yextent.1 cfg32.yextent.2 cfg32.img_shape.2 = 1 := by
  show binW (-(1 / 2) : ℚ) (63 / 2) 32 = 1
  unfold binW
  norm_num

theorem centerEm_binIx :
    binIx cfg32.xextent.1 cfg32.xextent.2 cfg32.img_shape.1 centerEm.x = 15 := by
  unfold binIx
  rw [cfg32_binW_x]
  rw [show (centerEm.x - cfg32.xextent.1) / 1 = 31 / 2 by
    show ((15 : ℚ) - -(1 / 2)) / 1 = 31 / 2; norm_num]
  rw [Int.floor_eq_iff]
  norm_num

theorem centerEm_pixel : pixelOf cfg32 centerEm = some (15, 15) := by
  have hin : inExtent cfg32 centerEm := by
    constructor
    · show (-(1 / 2) : ℚ) ≤ 15; norm_num
    constructor
    · show (15 : ℚ) < 63 / 2; norm_num
    constructor
    · show (-(1 / 2) : ℚ) ≤ 15; norm_num
    · show (15 : ℚ) < 63 / 2; norm_num
  unfold pixelOf
  rw [if_pos hin]
  have hx := centerEm_binIx
  have hy : binIx cfg32.yextent.1 cfg32.yextent.2 cfg32.img_shape.2 centerEm.y = 15 := by
    unfold binIx
    rw [cfg32_binW_y]
    rw [show (centerEm.y - cfg32.yextent.1) / 1 = 31 / 2 by
      show ((15 : ℚ) - -(1 / 2)) / 1 = 31 / 2; norm_num]
    rw [Int.floor_eq_iff]
    norm_num
  rw [hx, hy]

/-- Counterexample for C3: on the test grid, a single emitter exactly at the
centre of pixel (15, 15) with depth 0 makes the probability map non-zero at
that pixel while the Δx map is zero there, so the five maps do not share their
non-zero support for every EmitterSet. -/
theorem offsetRep_support_cex :
    pMap cfg32 [centerEm] 15 15 = 1 ∧ dxMap cfg32 [centerEm] 15 15 = 0 ∧
      ¬ (pMap cfg32 [centerEm] 15 15 ≠ 0 ↔ dxMap cfg32 [centerEm] 15 15 ≠ 0) := by
  have hl := lastAt_single cfg32 centerEm 15 15 centerEm_pixel
  have hp : pMap cfg32 [centerEm] 15 15 = 1 := by
    unfold pMap
    rw [hl]
  have hdx : dxMap cfg32 [centerEm] 15 15 = 0 := by
    unfold dxMap
    rw [hl]
    show fracOff cfg32.xextent.1 cfg32.xextent.2 cfg32.img_shape.1 centerEm.x = 0
    unfold fracOff
    rw [cfg32_binW_x, centerEm_binIx]
    rw [show (centerEm.x - cfg32.xextent.1) / 1 = 31 / 2 by
      show ((15 : ℚ) - -(1 / 2)) / 1 = 31 / 2; norm_num]
    norm_num
  refine ⟨hp, hdx, fun hiff => ?_⟩
  exact hiff.mp (by rw [hp]; norm_num) hdx

/-- Claim C3 (amended): the five OffsetRep maps are jointly written per pixel:
wherever I, Δx, Δy or z is non-zero, p is non-zero; and whenever every emitter
has non-zero photon count, non-zero depth and non-zero fractional offsets, the
non-zero supports of all five maps coincide exactly.  (The unconditional
claim fails: see the pixel-centre counterexample.) -/
theorem offsetRep_support (g : GridCfg) (ems : List Emitter) :
    (∀ i j : ℤ,
      (iMap g ems i j ≠ 0 → pMap g ems i j ≠ 0) ∧
      (dxMap g ems i j ≠ 0 → pMap g ems i j ≠ 0) ∧
      (dyMap g ems i j ≠ 0 → pMap g ems i j ≠ 0) ∧
      (zMap g ems i j ≠ 0 → pMap g ems i j ≠ 0)) ∧
    ((∀ em ∈ ems, em.phot ≠ 0 ∧ em.z ≠ 0 ∧
        fracOff g.xextent.1 g.xextent.2 g.img_shape.1 em.x ≠ 0 ∧
        fracOff g.yextent.1 g.yextent.2 g.img_shape.2 em.y ≠ 0) →
      ∀ i j : ℤ,
        (pMap g ems i j ≠ 0 ↔ iMap g ems i j ≠ 0) ∧
        (pMap g ems i j ≠ 0 ↔ dxMap g ems i j ≠ 0) ∧
        (pMap g ems i j ≠ 0 ↔ dyMap g ems i j ≠ 0) ∧
        (pMap g ems i j ≠ 0 ↔ zMap g ems i j ≠ 0)) := by
  constructor
  · intro i j
    cases h : lastAt g ems i j with
    | none =>
      unfold pMap iMap dxMap dyMap zMap
      rw [h]
      norm_num
    | some em =>
      unfold pMap iMap dxMap dyMap zMap
      rw [h]
      norm_num
  · intro hall i j
    cases h : lastAt g ems i j with
    | none =>
      unfold pMap iMap dxMap dyMap zMap
      rw [h]
      norm_num
    | some em =>
      obtain ⟨hp, hz, hdx, hdy⟩ := hall em (lastAt_mem g ems i j em h).1
      unfold pMap iMap dxMap dyMap zMap
      rw [h]
      refine ⟨?_, ?_, ?_, ?_⟩ <;> constructor <;> intro _
      · exact hp
      · norm_num
      · exact hdx
      · norm_num
      · exact hdy
      · norm_num
      · exact hz
      · norm_num

theorem offEm_binIx_x :
    binIx cfg32.xextent.1 cfg32.xextent.2 cfg32.img_shape.1 offEm.x = 15 := by
  unfold binIx
  rw [cfg32_binW_x]
  rw [show (offEm.x - cfg32.xextent.1) / 1 = 61 / 4 by
    show ((59 / 4 : ℚ) - -(1 / 2)) / 1 = 61 / 4; norm_num]
  rw [Int.floor_eq_iff]
  norm_num

theorem offEm_binIx_y :
    binIx cfg32.yextent.1 cfg32.yextent.2 cfg32.img_shape.2 offEm.y = 17 := by
  unfold binIx
  rw [cfg32_binW_y]
  rw [show (offEm.y - cfg32.yextent.1) / 1 = 71 / 4 by
    show ((69 / 4 : ℚ) - -(1 / 2)) / 1 = 71 / 4; norm_num]
  rw [Int.floor_eq_iff]
  norm_num

theorem offEm_fracOff_x :
    fracOff cfg32.xextent.1 cfg32.xextent.2 cfg32.img_shape.1 offEm.x = -(1 / 4) := by
  unfold fracOff
  rw [cfg32_binW_x, offEm_binIx_x]
  rw [show (offEm.x - cfg32.xextent.1) / 1 = 61 / 4 by
    show ((59 / 4 : ℚ) - -(1 / 2)) / 1 = 61 / 4; norm_num]
  norm_num

theorem offEm_fracOff_y :
    fracOff cfg32.yextent.1 cfg32.yextent.2 cfg32.img_shape.2 offEm.y = 1 / 4 := by
  unfold fracOff
  rw [cfg32_binW_y, offEm_binIx_y]
  rw [show (offEm.y - cfg32.yextent.1) / 1 = 71 / 4 by
    show ((69 / 4 : ℚ) - -(1 / 2)) / 1 = 71 / 4; norm_num]
  norm_num

/-- Witness for C3 (amended): the off-centre emitter satisfies the non-zero
side conditions, so the p and Δx supports agree at pixel (0, 0). -/
theorem offsetRep_support_witness :
    pMap cfg32 [offEm] 0 0 ≠ 0 ↔ dxMap cfg32 [offEm] 0 0 ≠ 0 :=
  ((offsetRep_support cfg32 [offEm]).2 (by
    intro em hm
    rw [List.mem_singleton] at hm
    subst hm
    refine ⟨?_, ?_, ?_, ?_⟩
    · show (2 : ℚ) ≠ 0; norm_num
    · show (3 : ℚ) ≠ 0; norm_num
    · rw [offEm_fracOff_x]; norm_num
    · rw [offEm_fracOff_y]; norm_num) 0 0).2.1

/-- Claim C4: every pixel entry of the Δx and Δy maps lies in `[-1/2, 1/2]`,
and a pixel holding an assigned emitter holds exactly that emitter's signed
fractional offset from the pixel's own centre (in bin units). -/
theorem offset_range (g : GridCfg) (ems : List Emitter)
    (hext : ∀ em ∈ ems, inExtent g em) :
    (∀ i j : ℤ,
      (-(1 / 2) ≤ dxMap g ems i j ∧ dxMap g ems i j ≤ 1 / 2) ∧
      (-(1 / 2) ≤ dyMap g ems i j ∧ dyMap g ems i j ≤ 1 / 2)) ∧
    (binW g.xextent.1 g.xextent.2 g.img_shape.1 ≠ 0 →
      binW g.yextent.1 g.yextent.2 g.img_shape.2 ≠ 0 →
      ∀ i j : ℤ, ∀ em, lastAt g ems i j = some em →
        dxMap g ems i j =
          (em.x - binCenter g.xextent.1 g.xextent.2 g.img_shape.1 i) /
            binW g.xextent.1 g.xextent.2 g.img_shape.1 ∧
        dyMap g ems i j =
          (em.y - binCenter g.yextent.1 g.yextent.2 g.img_shape.2 j) /
            binW g.yextent.1 g.yextent.2 g.img_shape.2) := by
  constructor
  · intro i j
    constructor
    · unfold dxMap
      cases h : lastAt g ems i j with
      | none => norm_num
      | some em => exact fracOff_bounds _ _ _ _
    · unfold dyMap
      cases h : lastAt g ems i j with
      | none => norm_num
      | some em => exact fracOff_bounds _ _ _ _
  · intro hwx hwy i j em h
    have hpix := (lastAt_mem g ems i j em h).2
    unfold pixelOf at hpix
    by_cases hin : inExtent g em
    · rw [if_pos hin] at hpix
      have hinj := Option.some.inj hpix
      have hix : binIx g.xextent.1 g.xextent.2 g.img_shape.1 em.x = i :=
        congrArg Prod.fst hinj
      have hjy : binIx g.yextent.1 g.yextent.2 g.img_shape.2 em.y = j :=
        congrArg Prod.snd hinj
      constructor
      · unfold dxMap
        rw [h]
        show fracOff g.xextent.1 g.xextent.2 g.img_shape.1 em.x = _
        rw [fracOff_eq_center _ _ _ _ hwx, hix]
      · unfold dyMap
        rw [h]
        show fracOff g.yextent.1 g.yextent.2 g.img_shape.2 em.y = _
        rw [fracOff_eq_center _ _ _ _ hwy, hjy]
    · rw [if_neg hin] at hpix
      exact absurd hpix (by simp)

/-- Witness for C4: the off-centre emitter is inside the test extent and the
Δx entry at pixel (0, 0) obeys the `[-1/2, 1/2]` bounds. -/
theorem offset_range_witness :
    -(1 / 2) ≤ dxMap cfg32 [offEm] 0 0 ∧ dxMap cfg32 [offEm] 0 0 ≤ 1 / 2 :=
  ((offset_range cfg32 [offEm] (by
    intro em hm
    rw [List.mem_singleton] at hm
    subst hm
    refine ⟨?_, ?_, ?_, ?_⟩
    · show (-(1 / 2) : ℚ) ≤ 59 / 4; norm_num
    · show (59 / 4 : ℚ) < 63 / 2; norm_num
    · show (-(1 / 2) : ℚ) ≤ 69 / 4; norm_num
    · show (69 / 4 : ℚ) < 63 / 2; norm_num)).1 0 0).1

theorem cfg32_binCenter_x (k : ℤ) :
    binCenter cfg32.xextent.1 cfg32.xextent.2 cfg32.img_shape.1 k = (k : ℚ) := by
  show binCenter (-(1 / 2) : ℚ) (63 / 2) 32 k = (k : ℚ)
  unfold binCenter binW
  norm_num

theorem twoEm_sqDist_diff (i j : ℤ) :
    sqDist cfg32 i j emLeft - sqDist cfg32 i j emRight =
      32 * (2 * (i : ℚ) - 31) := by
  unfold sqDist
  rw [cfg32_binCenter_x]
  have hyl : emLeft.y = (31 / 2 : ℚ) := rfl
  have hyr : emRight.y = (31 / 2 : ℚ) := rfl
  have hxl : emLeft.x = (-(1 / 2) : ℚ) := rfl
  have hxr : emRight.x = (63 / 2 : ℚ) := rfl
  rw [hyl, hyr, hxl, hxr]
  ring

theorem assign_two (g : GridCfg) (e0 e1 : Emitter) (i j : ℤ) :
    assign_emitter g [e0, e1] i j =
      if sqDist g i j e1 < sqDist g i j e0 then 1 else 0 := by
  unfold assign_emitter
  simp only [List.map_cons, List.map_nil, argmin?]
  by_cases hlt : sqDist g i j e1 < sqDist g i j e0
  · rw [if_pos hlt]
    simp [hlt]
  · rw [if_neg hlt]
    simp [hlt]

/-- Claim C9: for the two emitters at opposite x-extremes of the 32 × 32 test
grid, `assign_emitter` partitions the grid cleanly in half along the
perpendicular bisector: pixels with first index ≤ 15 belong to emitter 0,
those with first index ≥ 16 to emitter 1. -/
theorem assign_emitter_halfsplit :
    ∀ i j : Fin 32,
      assign_emitter cfg32 [emLeft, emRight] ((i : ℕ) : ℤ) ((j : ℕ) : ℤ) =
        if 16 ≤ (i : ℕ) then 1 else 0 := by
  intro i j
  rw [assign_two]
  have hdiff := twoEm_sqDist_diff ((i : ℕ) : ℤ) ((j : ℕ) : ℤ)
  by_cases h16 : 16 ≤ (i : ℕ)
  · have hc : (16 : ℚ) ≤ (((i : ℕ) : ℤ) : ℚ) := by exact_mod_cast h16
    have hlt : sqDist cfg32 ((i : ℕ) : ℤ) ((j : ℕ) : ℤ) emRight <
        sqDist cfg32 ((i : ℕ) : ℤ) ((j : ℕ) : ℤ) emLeft := by
      nlinarith [hdiff]
    rw [if_pos hlt, if_pos h16]
  · have h15 : (i : ℕ) ≤ 15 := by omega
    have hc : (((i : ℕ) : ℤ) : ℚ) ≤ 15 := by exact_mod_cast h15
    have hge : ¬ sqDist cfg32 ((i : ℕ) : ℤ) ((j : ℕ) : ℤ) emRight <
        sqDist cfg32 ((i : ℕ) : ℤ) ((j : ℕ) : ℤ) emLeft := by
      push_neg
      nlinarith [hdiff]
    rw [if_neg hge, if_neg h16]
